import Mathlib

/-!
Verification development for the generic request/response runtime of the
opik TypeScript SDK: the schema validation/serialization engine, the
request executor (fetcher) with retries/timeout/cancellation, and the
generated `SystemUsage` client-method facade
(`sdks/typescript/src/opik/rest_api/api/resources/systemUsage/client/Client.ts`).

The facade and the concrete schema declarations (`DatasetItemSource`,
`NumericalFeedbackDetailUpdate`) are embedded from the source.  The core
(`core/serialization`, `core/fetcher`, `core/Supplier`, `APIPromise`, the
environment constant, `url-join`) is not part of the analysed sources, so
those parts are modelled from the specification, as marked in their doc
comments.
-/

/-- A raw wire value (the untyped JSON-like payload handled by the engine).
Numbers are modelled as integers; arrays are carried so that non-object,
non-string shapes exist, matching the payload shapes the analysed schemas
can meet. -/
inductive Json where
  | null : Json
  | bool (b : Bool) : Json
  | num (n : Int) : Json
  | str (s : String) : Json
  | arr (xs : List Json) : Json
  | obj (entries : List (String × Json)) : Json

mutual

/-- Modelled from the spec: a Schema node of the `core.serialization` engine
(§3 Data Model).  The fragment covers the node kinds used by the schema
declarations present in the analysed sources: primitives, closed string
enums (`core.serialization.enum_`) and objects with required named fields
(`core.serialization.object`). -/
inductive Schema where
  | number : Schema
  | string : Schema
  | boolean : Schema
  | enum_ (members : List String) : Schema
  | object (fields : Fields) : Schema

/-- The declared fields of an object schema: a sequence of (name, schema)
pairs. -/
inductive Fields where
  | nil : Fields
  | cons (name : String) (schema : Schema) (rest : Fields) : Fields

end

/-- Modelled from the spec (§3 Strictness Configuration): how unrecognized
object keys are treated.  Per §4.2 and §8, strict mode drops an undeclared
key silently while passthrough mode retains it verbatim. -/
inductive UnrecognizedObjectKeys where
  | strict : UnrecognizedObjectKeys
  | passthrough : UnrecognizedObjectKeys
deriving DecidableEq

/-- Modelled from the spec: the per-call parse options fixed at a call site,
mirroring the option record passed to `parseOrThrow` in the generated
methods.  `breadcrumbsBase` is the breadcrumbs prefix option of the source
(`breadcrumbsPrefix: ["response"]` at every SystemUsage call site). -/
structure ParseOpts where
  unrecognizedObjectKeys : UnrecognizedObjectKeys
  allowUnrecognizedEnumValues : Bool
  allowUnrecognizedUnionMembers : Bool
  breadcrumbsBase : List String
deriving DecidableEq

/-- A validation failure report: a list of (breadcrumb, message) pairs
(§4.2 error reporting). -/
abbrev ValidationErrors := List (List String × String)

/-- Accumulates the outcome of one declared field with the outcome of the
remaining fields, keeping every error (one pass reports all mistakes). -/
def combineField (k : String) (r : Except ValidationErrors Json)
    (rest : Except ValidationErrors (List (String × Json))) :
    Except ValidationErrors (List (String × Json)) :=
  match r, rest with
  | .ok t, .ok pm => .ok ((k, t) :: pm)
  | .error es, .ok _ => .error es
  | .ok _, .error es2 => .error es2
  | .error es, .error es2 => .error (es ++ es2)

/-- Accumulates a missing-required-field error with the outcome of the
remaining fields. -/
def combineMissing (err : List String × String)
    (rest : Except ValidationErrors (List (String × Json))) :
    Except ValidationErrors (List (String × Json)) :=
  match rest with
  | .ok _ => .error [err]
  | .error es => .error (err :: es)

/-- Rebuilds the entries of an object value after its declared fields were
converted: a declared key takes its converted value, an undeclared key is
kept verbatim in passthrough mode and dropped silently in strict mode.
Entry order of the incoming value is preserved. -/
def rebuildEntries (opts : ParseOpts) (parsedMap : List (String × Json)) :
    List (String × Json) → List (String × Json)
  | [] => []
  | e :: rest =>
    match List.find? (fun p => p.1 == e.1) parsedMap with
    | some p => (e.1, p.2) :: rebuildEntries opts parsedMap rest
    | none =>
      match opts.unrecognizedObjectKeys with
      | .passthrough => e :: rebuildEntries opts parsedMap rest
      | .strict => rebuildEntries opts parsedMap rest

mutual

/-- Modelled from the spec (§4.2 `parse`): recursively validates and
converts a raw value, reporting every failure with its breadcrumb.  Enum
values outside the closed set are rejected in strict mode and preserved
verbatim in permissive mode; every declared object field must be present
and individually valid; undeclared keys are dropped in strict mode and
retained in passthrough mode. -/
def parse (s : Schema) (opts : ParseOpts) (crumbs : List String) (v : Json) :
    Except ValidationErrors Json :=
  match s, v with
  | .number, .num n => .ok (.num n)
  | .number, _ => .error [(crumbs, "expected a number")]
  | .string, .str t => .ok (.str t)
  | .string, _ => .error [(crumbs, "expected a string")]
  | .boolean, .bool b => .ok (.bool b)
  | .boolean, _ => .error [(crumbs, "expected a boolean")]
  | .enum_ members, .str t =>
    if members.contains t || opts.allowUnrecognizedEnumValues then .ok (.str t)
    else .error [(crumbs, "unrecognized enum value")]
  | .enum_ _, _ => .error [(crumbs, "expected a string")]
  | .object fields, .obj entries =>
    Except.map (fun pm => Json.obj (rebuildEntries opts pm entries))
      (parseFields fields opts crumbs entries)
  | .object _, _ => .error [(crumbs, "expected an object")]

/-- Parses the declared fields of an object schema against the entries of a
raw object, in declaration order, accumulating all errors.  On success it
returns the association list of declared keys to converted values. -/
def parseFields (fs : Fields) (opts : ParseOpts) (crumbs : List String)
    (entries : List (String × Json)) :
    Except ValidationErrors (List (String × Json)) :=
  match fs with
  | .nil => .ok []
  | .cons k sk rest =>
    match List.find? (fun e => e.1 == k) entries with
    | none => combineMissing (crumbs ++ [k], "missing required field")
        (parseFields rest opts crumbs entries)
    | some e => combineField k (parse sk opts (crumbs ++ [k]) e.2)
        (parseFields rest opts crumbs entries)

end

mutual

/-- Modelled from the spec (§4.2 `serialize`): the inverse mapping, written
out separately from `parse`.  On this fragment typed values share the raw
representation, so serialization validates the same shapes and rebuilds
object entries the same way. -/
def serialize (s : Schema) (opts : ParseOpts) (crumbs : List String) (v : Json) :
    Except ValidationErrors Json :=
  match s, v with
  | .number, .num n => .ok (.num n)
  | .number, _ => .error [(crumbs, "expected a number")]
  | .string, .str t => .ok (.str t)
  | .string, _ => .error [(crumbs, "expected a string")]
  | .boolean, .bool b => .ok (.bool b)
  | .boolean, _ => .error [(crumbs, "expected a boolean")]
  | .enum_ members, .str t =>
    if members.contains t || opts.allowUnrecognizedEnumValues then .ok (.str t)
    else .error [(crumbs, "unrecognized enum value")]
  | .enum_ _, _ => .error [(crumbs, "expected a string")]
  | .object fields, .obj entries =>
    Except.map (fun pm => Json.obj (rebuildEntries opts pm entries))
      (serializeFields fields opts crumbs entries)
  | .object _, _ => .error [(crumbs, "expected an object")]

/-- Serializes the declared fields of an object schema, mirroring
`parseFields`. -/
def serializeFields (fs : Fields) (opts : ParseOpts) (crumbs : List String)
    (entries : List (String × Json)) :
    Except ValidationErrors (List (String × Json)) :=
  match fs with
  | .nil => .ok []
  | .cons k sk rest =>
    match List.find? (fun e => e.1 == k) entries with
    | none => combineMissing (crumbs ++ [k], "missing required field")
        (serializeFields rest opts crumbs entries)
    | some e => combineField k (serialize sk opts (crumbs ++ [k]) e.2)
        (serializeFields rest opts crumbs entries)

end

/-- Parses a whole document, seeding the breadcrumbs from the call-site
options, as `parseOrThrow(body, opts)` does. -/
def parseDocument (s : Schema) (opts : ParseOpts) (v : Json) :
    Except ValidationErrors Json :=
  parse s opts opts.breadcrumbsBase v

/-- Whether a field name is declared in an object schema. -/
def Fields.hasName : Fields → String → Bool
  | .nil, _ => false
  | .cons k _ rest, n => k == n || Fields.hasName rest n

/-- The declared field names of an object schema, in order. -/
def Fields.names : Fields → List String
  | .nil => []
  | .cons k _ rest => k :: Fields.names rest

mutual

/-- A schema is well formed when every object node declares each field name
at most once — the spec describes an object schema as a fixed set of named
fields. -/
def schemaWF : Schema → Bool
  | .number => true
  | .string => true
  | .boolean => true
  | .enum_ _ => true
  | .object fs => fieldsWF fs

/-- Well-formedness of a field list: names are pairwise distinct and every
member schema is well formed. -/
def fieldsWF : Fields → Bool
  | .nil => true
  | .cons k sk rest => !(Fields.hasName rest k) && schemaWF sk && fieldsWF rest

end

/-- Whether the keys of a raw object are pairwise distinct (JSON objects
carry unique keys). -/
def keysNodup : List (String × Json) → Bool
  | [] => true
  | e :: rest => !(rest.any (fun e2 => e2.1 == e.1)) && keysNodup rest

mutual

/-- A raw value is accepted without loss by a schema under given options:
object keys are pairwise distinct, in strict mode every key is declared
(so none is silently dropped), and the declared fields are recursively
lossless.  On such values parsing is the identity. -/
def lossless (s : Schema) (opts : ParseOpts) (v : Json) : Bool :=
  match s, v with
  | .object fs, .obj entries =>
    (match opts.unrecognizedObjectKeys with
     | .passthrough => true
     | .strict => entries.all (fun e => Fields.hasName fs e.1)) &&
    keysNodup entries && losslessFields fs opts entries
  | _, _ => true

/-- Losslessness of the declared fields of an object value. -/
def losslessFields (fs : Fields) (opts : ParseOpts)
    (entries : List (String × Json)) : Bool :=
  match fs with
  | .nil => true
  | .cons k sk rest =>
    (match List.find? (fun e => e.1 == k) entries with
     | some e => lossless sk opts e.2
     | none => true) && losslessFields rest opts entries

end

/-- The `DatasetItemSource` schema from the source:
`core.serialization.enum_(["manual", "trace", "span", "sdk"])`. -/
def DatasetItemSource : Schema := .enum_ ["manual", "trace", "span", "sdk"]

/-- The `NumericalFeedbackDetailUpdate` schema from the source:
`core.serialization.object({ max: core.serialization.number(), min:
core.serialization.number() })`. -/
def NumericalFeedbackDetailUpdate : Schema :=
  .object (.cons "max" .number (.cons "min" .number .nil))

/-- The parse options fixed at every `SystemUsage` call site:
`unrecognizedObjectKeys: "passthrough", allowUnrecognizedUnionMembers:
true, allowUnrecognizedEnumValues: true, breadcrumbsPrefix: ["response"]`. -/
def sysUsageRequestOpts : ParseOpts :=
  { unrecognizedObjectKeys := .passthrough
    allowUnrecognizedEnumValues := true
    allowUnrecognizedUnionMembers := true
    breadcrumbsBase := ["response"] }

/-- Response parse options with permissive enum mode switched off, same
breadcrumbs prefix as the call sites. -/
def responseStrictOpts : ParseOpts :=
  { unrecognizedObjectKeys := .strict
    allowUnrecognizedEnumValues := false
    allowUnrecognizedUnionMembers := false
    breadcrumbsBase := ["response"] }

/-- Engine options for strict parsing from the document root. -/
def strictEngineOpts : ParseOpts :=
  { unrecognizedObjectKeys := .strict
    allowUnrecognizedEnumValues := false
    allowUnrecognizedUnionMembers := false
    breadcrumbsBase := [] }

/-- Modelled from the spec (§3 Credential Supplier): a deferred accessor for
a single configuration value; an absent supplier or an absent value
resolves to `none`. -/
def Supplier (A : Type) : Type := Unit → Option A

/-- Modelled from the spec: `core.Supplier.get` resolves a supplier to its
current value. -/
def Supplier.get {A : Type} (s : Supplier A) : Option A := s ()

/-- The client-construction options of the `SystemUsage` class
(`SystemUsage.Options`): environment, apiKey and workspaceName suppliers. -/
structure ClientOptions where
  environment : Supplier String
  apiKey : Supplier String
  workspaceName : Supplier String

/-- The per-call request options of the `SystemUsage` methods
(`SystemUsage.RequestOptions`), restricted to the fields the generated
method bodies read: `timeoutInSeconds`, `maxRetries` and additional
`headers`.  The cancellation hook (`abortSignal`) is modelled separately as
the cancellation predicate given to the fetcher. -/
structure RequestOptions where
  timeoutInSeconds : Option Rat
  maxRetries : Option Nat
  headers : List (String × String)

/-- Modelled from the spec: the documented default environment constant
(`environments.OpikApiEnvironment.Default`) used when no environment is
supplied. -/
def OpikApiEnvironment.Default : String := "https://www.comet.com/opik/api"

/-- Modelled from the spec (§4.5): the base URL joined with the endpoint
path (the `url-join` dependency). -/
def urlJoin (base path : String) : String :=
  if base.endsWith "/" then base ++ path else base ++ "/" ++ path

/-- Modelled from the spec: the runtime identification sent in the
`X-Fern-Runtime` headers (`core.RUNTIME`). -/
structure Runtime where
  type : String
  version : String

/-- Modelled from the spec: concrete runtime identification; its value is
irrelevant to every property proved here. -/
def RUNTIME : Runtime := { type := "node", version := "unknown" }

/-- The request URL built by `getDatasetBiInfo`:
`urlJoin((await core.Supplier.get(this._options.environment)) ??
environments.OpikApiEnvironment.Default, "v1/internal/usage/bi-datasets")`. -/
def getDatasetBiInfoUrl (opts : ClientOptions) : String :=
  urlJoin ((Supplier.get opts.environment).getD OpikApiEnvironment.Default)
    "v1/internal/usage/bi-datasets"

/-- The header object built by `getDatasetBiInfo` lines 62-72: the literal
entries in source order, the custom authorization headers
(`{ Authorization: apiKeyValue }`), then the caller-supplied
`requestOptions?.headers`.  A `none` value models a key set to `undefined`
(the header is not sent). -/
def getDatasetBiInfoHeaders (opts : ClientOptions)
    (reqHeaders : List (String × String)) : List (String × Option String) :=
  [("Comet-Workspace",
      match Supplier.get opts.workspaceName with
      | some w => some w
      | none => none),
   ("X-Fern-Language", some "JavaScript"),
   ("X-Fern-Runtime", some RUNTIME.type),
   ("X-Fern-Runtime-Version", some RUNTIME.version),
   ("Authorization", Supplier.get opts.apiKey)] ++
  reqHeaders.map (fun p => (p.1, some p.2))

/-- The final value of a header key in a built header object: object
literal semantics, the last writer of the key wins. -/
def headerValue (hs : List (String × Option String)) (k : String) :
    Option String :=
  match List.find? (fun p => p.1 == k) hs.reverse with
  | some p => p.2
  | none => none

/-- The effective request timeout of `getDatasetBiInfo`:
`requestOptions?.timeoutInSeconds != null ? requestOptions.timeoutInSeconds
* 1000 : 60000`. -/
def getDatasetBiInfoTimeoutMs (reqOpts : Option RequestOptions) : Rat :=
  match reqOpts.bind RequestOptions.timeoutInSeconds with
  | some s => s * 1000
  | none => 60000

/-- Modelled from the spec (§6 Transport capability): one transport
response: status, raw body, the parsed JSON body when the raw body parses
as JSON, and response headers. -/
structure TransportResponse where
  status : Nat
  rawBody : String
  jsonBody : Option Json
  headers : List (String × String)

/-- Modelled from the spec (§4.3, §6): the outcome of one transport
attempt: a response, a transport-level failure, or no response before the
per-attempt deadline. -/
inductive TransportOutcome where
  | response (r : TransportResponse) : TransportOutcome
  | failure (message : String) : TransportOutcome
  | timedOut : TransportOutcome

/-- Modelled from the spec (§4.3 Output, §4.4): the classified failure of
the executor, a closed set of reasons. -/
inductive FetchError where
  | statusCode (status : Nat) (body : String) : FetchError
  | nonJson (status : Nat) (rawBody : String) : FetchError
  | timeout : FetchError
  | cancelled : FetchError
  | unknown (message : String) : FetchError

/-- The discriminant string of a classified executor failure, as matched by
the generated method bodies (`_response.error.reason`). -/
def FetchError.reason : FetchError → String
  | .statusCode _ _ => "status-code"
  | .nonJson _ _ => "non-json"
  | .timeout => "timeout"
  | .cancelled => "cancelled"
  | .unknown _ => "unknown"

/-- Modelled from the spec (§4.3 Output): the uniform executor result:
`{ok: true, body, headers}` or `{ok: false, error}`. -/
inductive FetchResult where
  | ok (body : Json) (headers : List (String × String)) : FetchResult
  | err (error : FetchError) : FetchResult

/-- Modelled from the spec (§4.3 Retry policy): a response status belongs
to the retry-eligible class (429 or 5xx). -/
def retryableStatus (s : Nat) : Bool :=
  s == 429 || (decide (500 ≤ s) && decide (s < 600))

/-- Modelled from the spec (§4.3): classification of one transport attempt.
`done` carries a terminal result; `retryable` carries the classified
failure to surface when no retries remain (transport-level failures and
retry-eligible statuses are the retryable ones). -/
inductive AttemptClass where
  | done (result : FetchResult) : AttemptClass
  | retryable (fallback : FetchResult) : AttemptClass

/-- Modelled from the spec (§4.3): classifies the outcome of one attempt: a
2xx response with a JSON body succeeds, a 2xx response whose body is not
JSON is a `non-json` failure, a missed deadline is a `timeout` failure, a
transport-level failure is retryable carrying an `unknown` failure, and a
non-2xx status is a `status-code` failure, retryable exactly when the
status is in the retry-eligible class. -/
def classifyAttempt (o : TransportOutcome) : AttemptClass :=
  match o with
  | .failure msg => .retryable (.err (.unknown msg))
  | .timedOut => .done (.err .timeout)
  | .response resp =>
    if 200 ≤ resp.status ∧ resp.status < 300 then
      match resp.jsonBody with
      | some j => .done (.ok j resp.headers)
      | none => .done (.err (.nonJson resp.status resp.rawBody))
    else if retryableStatus resp.status then
      .retryable (.err (.statusCode resp.status resp.rawBody))
    else .done (.err (.statusCode resp.status resp.rawBody))

/-- Modelled from the spec (§4.3): the executor loop.  `transport` gives
the outcome of each attempt (the identical descriptor is re-sent, only the
attempt index varies), `cancelFired` tells whether the cancellation token
has fired before a given attempt.  The cancellation token is checked before
each attempt; a retryable failure is retried while retries remain, and the
last observed failure is surfaced when they are exhausted; the result also
carries the number of attempts performed. -/
def fetcherLoop (transport : Nat → TransportOutcome)
    (cancelFired : Nat → Bool) :
    Nat → Nat → FetchResult × Nat
  | 0, attempt =>
    if cancelFired attempt then (.err .cancelled, attempt)
    else
      match classifyAttempt (transport attempt) with
      | .done res => (res, attempt + 1)
      | .retryable fallback => (fallback, attempt + 1)
  | r + 1, attempt =>
    if cancelFired attempt then (.err .cancelled, attempt)
    else
      match classifyAttempt (transport attempt) with
      | .done res => (res, attempt + 1)
      | .retryable _ => fetcherLoop transport cancelFired r (attempt + 1)

/-- Modelled from the spec (§4.3): `core.fetcher` run from the first
attempt.  The number of additional retries defaults to 2 when the caller
supplies none (`maxRetries` option, documented default 2). -/
def fetcher (transport : Nat → TransportOutcome) (cancelFired : Nat → Bool)
    (maxRetries : Option Nat) : FetchResult × Nat :=
  fetcherLoop transport cancelFired (maxRetries.getD 2) 0

/-- The errors thrown inside the generated method body: `OpikApiError`
(with optional message, status code and body) and `OpikApiTimeoutError`,
plus the validation failure thrown by `parseOrThrow`. -/
inductive ThrownError where
  | opikApiError (message : Option String) (statusCode : Option Nat)
      (body : Option String) : ThrownError
  | opikApiTimeoutError (message : String) : ThrownError
  | validationError (errors : ValidationErrors) : ThrownError

/-- The body of `SystemUsage.getDatasetBiInfo` after the fetcher returned
(source lines 81-113), over the endpoint's declared response schema: a
success is parsed with the call-site options; a `status-code`, `non-json`,
`timeout` or `unknown` failure throws the corresponding error; any other
failure reason matches no branch, so the async function returns
`undefined` (modelled as `.ok none`). -/
def getDatasetBiInfoBody (schema : Schema) (resp : FetchResult) :
    Except ThrownError (Option (Json × List (String × String))) :=
  match resp with
  | .ok body headers =>
    match parseDocument schema sysUsageRequestOpts body with
    | .ok typed => .ok (some (typed, headers))
    | .error errs => .error (.validationError errs)
  | .err (.statusCode st b) => .error (.opikApiError none (some st) (some b))
  | .err (.nonJson st raw) => .error (.opikApiError none (some st) (some raw))
  | .err .timeout => .error (.opikApiTimeoutError
      "Timeout exceeded when calling GET /v1/internal/usage/bi-datasets.")
  | .err (.unknown msg) => .error (.opikApiError (some msg) none none)
  | .err .cancelled => .ok none

/-- Modelled from the spec (§6 caller-facing result surface): the value an
awaited `core.APIPromise` exposes: `ok` with a body, or a typed error. -/
inductive ApiResult (A : Type) where
  | success (body : A) : ApiResult A
  | failure (error : ThrownError) : ApiResult A

/-- Modelled from the spec: `core.APIPromise.from` captures the wrapped
computation's classified throw into the typed result surface; it never
re-raises by itself. -/
def APIPromise.from {A : Type} (computation : Except ThrownError A) :
    ApiResult A :=
  match computation with
  | .ok a => .success a
  | .error e => .failure e

/-- The `ok` discriminant of the result surface. -/
def ApiResult.isOk {A : Type} : ApiResult A → Bool
  | .success _ => true
  | .failure _ => false

/-- Modelled from the spec: the throwing `unwrap()` convenience accessor,
raising the carried error for callers who want exception-style flow. -/
def ApiResult.unwrap {A : Type} : ApiResult A → Except ThrownError A
  | .success a => .ok a
  | .failure e => .error e

/-- The full `getDatasetBiInfo` call: run the fetcher with the caller's
`maxRetries` (`requestOptions?.maxRetries`), feed the result through the
generated method body, and surface it on the `APIPromise` result surface. -/
def getDatasetBiInfoCall (schema : Schema)
    (transport : Nat → TransportOutcome) (cancelFired : Nat → Bool)
    (reqOpts : Option RequestOptions) :
    ApiResult (Option (Json × List (String × String))) :=
  APIPromise.from (getDatasetBiInfoBody schema
    (fetcher transport cancelFired (reqOpts.bind RequestOptions.maxRetries)).1)

/-- A transport that fails twice at the transport level and then responds
with status 200 and an empty JSON object. -/
def twoFailThenOk : Nat → TransportOutcome := fun n =>
  if n == 0 then .failure "first failure"
  else if n == 1 then .failure "second failure"
  else .response { status := 200, rawBody := "", jsonBody := some (Json.obj []), headers := [] }

/-- A transport that fails at the transport level on every attempt, with a
distinct detail per attempt. -/
def alwaysFail : Nat → TransportOutcome := fun n =>
  if n == 0 then .failure "first failure"
  else if n == 1 then .failure "second failure"
  else .failure "third failure"

/-- A cancellation token that never fires. -/
def neverCancel : Nat → Bool := fun _ => false


theorem findKey_fst {β : Type} {l : List (String × β)} {k : String} {q : String × β}
    (h : List.find? (fun p => p.1 == k) l = some q) : q.1 = k := by
  have hp := List.find?_some h
  simp only [beq_iff_eq] at hp
  exact hp

theorem findKey_mem_keys {β : Type} {l : List (String × β)} {k : String} {q : String × β}
    (h : List.find? (fun p => p.1 == k) l = some q) : k ∈ l.map Prod.fst := by
  have hm := List.mem_of_find?_eq_some h
  have hk := findKey_fst h
  exact hk ▸ List.mem_map_of_mem Prod.fst hm

theorem keys_mem_findKey {β : Type} {l : List (String × β)} {k : String}
    (h : k ∈ l.map Prod.fst) : ∃ q, List.find? (fun p => p.1 == k) l = some q := by
  induction l with
  | nil => simp at h
  | cons a rest ih =>
    by_cases hk : a.1 = k
    · exact ⟨a, by simp [List.find?, hk]⟩
    · have hmem : k ∈ rest.map Prod.fst := by
        simp only [List.map_cons, List.mem_cons] at h
        exact h.resolve_left (fun hh => hk hh.symm)
      obtain ⟨q, hq⟩ := ih hmem
      exact ⟨q, by simp [List.find?, beq_eq_false_iff_ne.mpr hk, hq]⟩

theorem nodup_findKey {l : List (String × Json)} {k : String} {v : Json}
    (hn : keysNodup l = true) (hm : (k, v) ∈ l) :
    List.find? (fun p => p.1 == k) l = some (k, v) := by
  induction l with
  | nil => simp at hm
  | cons a rest ih =>
    simp only [keysNodup, Bool.and_eq_true, Bool.not_eq_true', List.any_eq_false] at hn
    rcases List.mem_cons.mp hm with hh | hr
    · rw [← hh]
      simp [List.find?]
    · have hka : (k == a.1) = false := by
        have := hn.1 (k, v) hr
        simpa using this
      have hak : (a.1 == k) = false :=
        beq_eq_false_iff_ne.mpr (fun he => (beq_eq_false_iff_ne.mp hka) he.symm)
      simp [List.find?, hak, ih hn.2 hr]

theorem hasName_iff_mem_names : ∀ (fs : Fields) (k : String),
    Fields.hasName fs k = true ↔ k ∈ Fields.names fs
  | .nil, k => by simp [Fields.hasName, Fields.names]
  | .cons k2 sk rest, k => by
    simp only [Fields.hasName, Fields.names, Bool.or_eq_true, List.mem_cons, beq_iff_eq]
    exact or_congr ⟨Eq.symm, Eq.symm⟩ (hasName_iff_mem_names rest k)

theorem parseFields_cons_ok {k : String} {sk : Schema} {rest : Fields}
    {opts : ParseOpts} {crumbs : List String} {entries : List (String × Json)}
    {pm : List (String × Json)}
    (h : parseFields (.cons k sk rest) opts crumbs entries = .ok pm) :
    ∃ e t pmr, List.find? (fun p => p.1 == k) entries = some e ∧
      parse sk opts (crumbs ++ [k]) e.2 = .ok t ∧
      parseFields rest opts crumbs entries = .ok pmr ∧
      pm = (k, t) :: pmr := by
  cases hf : List.find? (fun p => p.1 == k) entries with
  | none =>
    cases hr : parseFields rest opts crumbs entries with
    | ok pmr => simp [parseFields, hf, hr, combineMissing] at h
    | error es => simp [parseFields, hf, hr, combineMissing] at h
  | some e =>
    cases hp : parse sk opts (crumbs ++ [k]) e.2 with
    | error es =>
      cases hr : parseFields rest opts crumbs entries with
      | ok pmr => simp [parseFields, hf, hp, hr, combineField] at h
      | error es2 => simp [parseFields, hf, hp, hr, combineField] at h
    | ok t =>
      cases hr : parseFields rest opts crumbs entries with
      | error es2 => simp [parseFields, hf, hp, hr, combineField] at h
      | ok pmr =>
        simp only [parseFields, hf, hp, hr, combineField, Except.ok.injEq] at h
        exact ⟨e, t, pmr, rfl, hp, rfl, h.symm⟩

theorem parseFields_keys : ∀ (fs : Fields) (opts : ParseOpts) (crumbs : List String)
    (entries pm : List (String × Json)),
    parseFields fs opts crumbs entries = .ok pm → pm.map Prod.fst = Fields.names fs
  | .nil, _, _, _, pm, h => by
    simp only [parseFields, Except.ok.injEq] at h
    simp [← h, Fields.names]
  | .cons k sk rest, opts, crumbs, entries, pm, h => by
    obtain ⟨e, t, pmr, _, _, hr, hpm⟩ := parseFields_cons_ok h
    subst hpm
    simp [Fields.names, parseFields_keys rest opts crumbs entries pmr hr]

theorem parseFields_entry_found : ∀ (fs : Fields) (opts : ParseOpts)
    (crumbs : List String) (entries pm : List (String × Json)) (k : String),
    parseFields fs opts crumbs entries = .ok pm → Fields.hasName fs k = true →
    ∃ e, List.find? (fun p => p.1 == k) entries = some e
  | .nil, _, _, _, _, k, _, hk => by simp [Fields.hasName] at hk
  | .cons k2 sk rest, opts, crumbs, entries, pm, k, h, hk => by
    obtain ⟨e, t, pmr, hf, _, hr, _⟩ := parseFields_cons_ok h
    simp only [Fields.hasName, Bool.or_eq_true, beq_iff_eq] at hk
    rcases hk with hk | hk
    · exact ⟨e, hk ▸ hf⟩
    · exact parseFields_entry_found rest opts crumbs entries pmr k hr hk

theorem rebuildEntries_idem (opts : ParseOpts) (pm : List (String × Json)) :
    ∀ es, rebuildEntries opts pm (rebuildEntries opts pm es) = rebuildEntries opts pm es := by
  intro es
  induction es with
  | nil => rfl
  | cons a rest ih =>
    cases hf : List.find? (fun p => p.1 == a.1) pm with
    | some p =>
      simp only [rebuildEntries, hf]
      simp only [rebuildEntries, hf, ih]
    | none =>
      cases hmode : opts.unrecognizedObjectKeys with
      | passthrough =>
        simp only [rebuildEntries, hf, hmode, ih]
      | strict =>
        simp only [rebuildEntries, hf, hmode, ih]

theorem rebuildEntries_find (opts : ParseOpts) (pm : List (String × Json))
    (k : String) (t : Json) :
    ∀ es e0, List.find? (fun p => p.1 == k) pm = some (k, t) →
      List.find? (fun p => p.1 == k) es = some e0 →
      List.find? (fun p => p.1 == k) (rebuildEntries opts pm es) = some (k, t) := by
  intro es
  induction es with
  | nil => intro e0 _ hfe; simp [List.find?] at hfe
  | cons a rest ih =>
    intro e0 hpm hfe
    by_cases hak : a.1 = k
    · subst hak
      simp only [rebuildEntries, hpm]
      simp [List.find?]
    · have hbeq : (a.1 == k) = false := beq_eq_false_iff_ne.mpr hak
      have hfe2 : List.find? (fun p => p.1 == k) rest = some e0 := by
        simpa [List.find?, hbeq] using hfe
      cases hfa : List.find? (fun p => p.1 == a.1) pm with
      | some p =>
        simp only [rebuildEntries, hfa]
        simp only [List.find?, hbeq]
        exact ih e0 hpm hfe2
      | none =>
        cases hmode : opts.unrecognizedObjectKeys with
        | passthrough =>
          simp only [rebuildEntries, hfa, hmode]
          simp only [List.find?, hbeq]
          exact ih e0 hpm hfe2
        | strict =>
          simp only [rebuildEntries, hfa, hmode]
          exact ih e0 hpm hfe2

theorem rebuildEntries_id (opts : ParseOpts) (pm : List (String × Json)) :
    ∀ es, (∀ e, e ∈ es →
        (List.find? (fun p => p.1 == e.1) pm = some (e.1, e.2)) ∨
        (List.find? (fun p => p.1 == e.1) pm = none ∧
          opts.unrecognizedObjectKeys = .passthrough)) →
      rebuildEntries opts pm es = es := by
  intro es
  induction es with
  | nil => intro _; rfl
  | cons a rest ih =>
    intro hP
    have hrest := ih (fun e he => hP e (List.mem_cons_of_mem a he))
    rcases hP a (List.mem_cons_self a rest) with hs | ⟨hnone, hpass⟩
    · simp only [rebuildEntries, hs, hrest]
    · simp only [rebuildEntries, hnone, hpass, hrest]

mutual

theorem serialize_eq_parse : ∀ (s : Schema) (opts : ParseOpts) (crumbs : List String)
    (v : Json), serialize s opts crumbs v = parse s opts crumbs v
  | .number, _, _, v => by cases v <;> rfl
  | .string, _, _, v => by cases v <;> rfl
  | .boolean, _, _, v => by cases v <;> rfl
  | .enum_ ms, _, _, v => by cases v <;> rfl
  | .object fs, opts, crumbs, .null => rfl
  | .object fs, opts, crumbs, .bool b => rfl
  | .object fs, opts, crumbs, .num n => rfl
  | .object fs, opts, crumbs, .str u => rfl
  | .object fs, opts, crumbs, .arr xs => rfl
  | .object fs, opts, crumbs, .obj entries => by
    simp only [serialize, parse, serializeFields_eq_parseFields fs opts crumbs entries]

theorem serializeFields_eq_parseFields : ∀ (fs : Fields) (opts : ParseOpts)
    (crumbs : List String) (entries : List (String × Json)),
    serializeFields fs opts crumbs entries = parseFields fs opts crumbs entries
  | .nil, _, _, _ => rfl
  | .cons k sk rest, opts, crumbs, entries => by
    simp only [serializeFields, parseFields,
      serialize_eq_parse sk opts (crumbs ++ [k]),
      serializeFields_eq_parseFields rest opts crumbs entries]

end

mutual

theorem parse_idem : ∀ (s : Schema) (opts : ParseOpts) (c : List String)
    (v t : Json) (c2 : List String), schemaWF s = true →
    parse s opts c v = .ok t → parse s opts c2 t = .ok t
  | .number, opts, c, v, t, c2, _, h => by
    cases v <;> simp [parse] at h
    subst h
    rfl
  | .string, opts, c, v, t, c2, _, h => by
    cases v <;> simp [parse] at h
    subst h
    rfl
  | .boolean, opts, c, v, t, c2, _, h => by
    cases v <;> simp [parse] at h
    subst h
    rfl
  | .enum_ ms, opts, c, .null, t, c2, _, h => by simp [parse] at h
  | .enum_ ms, opts, c, .bool b, t, c2, _, h => by simp [parse] at h
  | .enum_ ms, opts, c, .num n, t, c2, _, h => by simp [parse] at h
  | .enum_ ms, opts, c, .arr xs, t, c2, _, h => by simp [parse] at h
  | .enum_ ms, opts, c, .obj es, t, c2, _, h => by simp [parse] at h
  | .enum_ ms, opts, c, .str u, t, c2, _, h => by
    simp only [parse] at h
    cases hc : (ms.contains u || opts.allowUnrecognizedEnumValues) with
    | false =>
      rw [hc] at h
      simp at h
    | true =>
      rw [hc] at h
      simp at h
      subst h
      have hgoal : (if (ms.contains u || opts.allowUnrecognizedEnumValues) = true
          then Except.ok (Json.str u)
          else Except.error [(c2, "unrecognized enum value")]) =
          Except.ok (Json.str u) := by
        rw [hc]
        simp
      exact hgoal
  | .object fs, opts, c, .null, t, c2, _, h => by simp [parse] at h
  | .object fs, opts, c, .bool b, t, c2, _, h => by simp [parse] at h
  | .object fs, opts, c, .num n, t, c2, _, h => by simp [parse] at h
  | .object fs, opts, c, .str u, t, c2, _, h => by simp [parse] at h
  | .object fs, opts, c, .arr xs, t, c2, _, h => by simp [parse] at h
  | .object fs, opts, c, .obj entries, t, c2, hwf, h => by
    simp only [parse] at h
    cases hpf : parseFields fs opts c entries with
    | error es => rw [hpf] at h; simp [Except.map] at h
    | ok pm =>
      rw [hpf] at h
      simp only [Except.map, Except.ok.injEq] at h
      subst h
      have hwf2 : fieldsWF fs = true := by simpa [schemaWF] using hwf
      have hfnd : ∀ k v2, List.find? (fun p => p.1 == k) pm = some (k, v2) →
          List.find? (fun p => p.1 == k) (rebuildEntries opts pm entries) =
            some (k, v2) := by
        intro k v2 hk
        have hkeys : k ∈ pm.map Prod.fst := findKey_mem_keys hk
        have hname : Fields.hasName fs k = true := by
          rw [hasName_iff_mem_names]
          rw [← parseFields_keys fs opts c entries pm hpf]
          exact hkeys
        obtain ⟨e0, he0⟩ := parseFields_entry_found fs opts c entries pm k hpf hname
        exact rebuildEntries_find opts pm k v2 entries e0 hk he0
      have hpf2 := parseFields_idem fs opts c entries pm c2
        (rebuildEntries opts pm entries) hwf2 hpf hfnd
      have hgoal : Except.map
          (fun pm2 => Json.obj (rebuildEntries opts pm2 (rebuildEntries opts pm entries)))
          (parseFields fs opts c2 (rebuildEntries opts pm entries)) =
          Except.ok (Json.obj (rebuildEntries opts pm entries)) := by
        rw [hpf2]
        simp only [Except.map]
        rw [rebuildEntries_idem opts pm entries]
      exact hgoal

theorem parseFields_idem : ∀ (fs : Fields) (opts : ParseOpts) (c : List String)
    (entries pm : List (String × Json)) (c2 : List String)
    (es2 : List (String × Json)),
    fieldsWF fs = true → parseFields fs opts c entries = .ok pm →
    (∀ k v2, List.find? (fun p => p.1 == k) pm = some (k, v2) →
      List.find? (fun p => p.1 == k) es2 = some (k, v2)) →
    parseFields fs opts c2 es2 = .ok pm
  | .nil, opts, c, entries, pm, c2, es2, _, h, _ => by
    simp only [parseFields, Except.ok.injEq] at h ⊢
    exact h
  | .cons k sk rest, opts, c, entries, pm, c2, es2, hwf, h, hagree => by
    obtain ⟨e, t, pmr, hf, hp, hr, hpm⟩ := parseFields_cons_ok h
    subst hpm
    simp only [fieldsWF, Bool.and_eq_true, Bool.not_eq_true'] at hwf
    obtain ⟨⟨hnotin, hwsk⟩, hwrest⟩ := hwf
    have hself : List.find? (fun p => p.1 == k) ((k, t) :: pmr) = some (k, t) := by
      simp [List.find?]
    have hes2 := hagree k t hself
    have hrec : parseFields rest opts c2 es2 = .ok pmr :=
      parseFields_idem rest opts c entries pmr c2 es2 hwrest hr (by
        intro k0 v0 hk0
        have hk0ne : k ≠ k0 := by
          intro he
          subst he
          have hmem : k ∈ pmr.map Prod.fst := findKey_mem_keys hk0
          rw [parseFields_keys rest opts c entries pmr hr] at hmem
          have := (hasName_iff_mem_names rest k).mpr hmem
          rw [hnotin] at this
          exact Bool.false_ne_true this
        apply hagree
        simp [List.find?, beq_eq_false_iff_ne.mpr hk0ne, hk0])
    simp only [parseFields, hes2]
    rw [parse_idem sk opts (c ++ [k]) e.2 t (c2 ++ [k]) hwsk hp, hrec]
    rfl

end

mutual

theorem parse_lossless_id : ∀ (s : Schema) (opts : ParseOpts) (c : List String)
    (v t : Json), schemaWF s = true → lossless s opts v = true →
    parse s opts c v = .ok t → t = v
  | .number, opts, c, v, t, _, _, h => by
    cases v <;> simp [parse] at h
    exact h.symm
  | .string, opts, c, v, t, _, _, h => by
    cases v <;> simp [parse] at h
    exact h.symm
  | .boolean, opts, c, v, t, _, _, h => by
    cases v <;> simp [parse] at h
    exact h.symm
  | .enum_ ms, opts, c, .null, t, _, _, h => by simp [parse] at h
  | .enum_ ms, opts, c, .bool b, t, _, _, h => by simp [parse] at h
  | .enum_ ms, opts, c, .num n, t, _, _, h => by simp [parse] at h
  | .enum_ ms, opts, c, .arr xs, t, _, _, h => by simp [parse] at h
  | .enum_ ms, opts, c, .obj es, t, _, _, h => by simp [parse] at h
  | .enum_ ms, opts, c, .str u, t, _, _, h => by
    simp only [parse] at h
    cases hc : (ms.contains u || opts.allowUnrecognizedEnumValues) with
    | false =>
      rw [hc] at h
      simp at h
    | true =>
      rw [hc] at h
      simp at h
      exact h.symm
  | .object fs, opts, c, .null, t, _, _, h => by simp [parse] at h
  | .object fs, opts, c, .bool b, t, _, _, h => by simp [parse] at h
  | .object fs, opts, c, .num n, t, _, _, h => by simp [parse] at h
  | .object fs, opts, c, .str u, t, _, _, h => by simp [parse] at h
  | .object fs, opts, c, .arr xs, t, _, _, h => by simp [parse] at h
  | .object fs, opts, c, .obj entries, t, hwf, hl, h => by
    simp only [parse] at h
    cases hpf : parseFields fs opts c entries with
    | error es =>
      rw [hpf] at h
      simp [Except.map] at h
    | ok pm =>
      rw [hpf] at h
      simp only [Except.map, Except.ok.injEq] at h
      subst h
      have hwf2 : fieldsWF fs = true := by simpa [schemaWF] using hwf
      simp only [lossless, Bool.and_eq_true] at hl
      obtain ⟨⟨hmode, hnd⟩, hlf⟩ := hl
      have hrid : rebuildEntries opts pm entries = entries := by
        apply rebuildEntries_id
        intro e he
        cases hfe : List.find? (fun p => p.1 == e.1) pm with
        | some p =>
          left
          have hp1 : p.1 = e.1 := findKey_fst hfe
          have hfe2 : List.find? (fun p2 => p2.1 == e.1) pm = some (e.1, p.2) := by
            rw [hfe]
            rw [← hp1]
          have hent := parseFields_lossless fs opts c entries pm hwf2 hlf hpf
            e.1 p.2 hfe2
          have hee : List.find? (fun p2 => p2.1 == e.1) entries =
              some (e.1, e.2) := nodup_findKey hnd (by simpa using he)
          rw [hent] at hee
          simp only [Option.some.injEq, Prod.mk.injEq] at hee
          simp only [Option.some.injEq, Prod.ext_iff]
          exact ⟨hp1, hee.2⟩
        | none =>
          right
          refine ⟨rfl, ?_⟩
          cases hmo : opts.unrecognizedObjectKeys with
          | passthrough => rfl
          | strict =>
            exfalso
            rw [hmo] at hmode
            have hname : Fields.hasName fs e.1 = true :=
              List.all_eq_true.mp hmode e he
            have hmem : e.1 ∈ pm.map Prod.fst := by
              rw [parseFields_keys fs opts c entries pm hpf]
              exact (hasName_iff_mem_names fs e.1).mp hname
            obtain ⟨q, hq⟩ := keys_mem_findKey hmem
            rw [hfe] at hq
            exact Option.noConfusion hq
      rw [hrid]

theorem parseFields_lossless : ∀ (fs : Fields) (opts : ParseOpts) (c : List String)
    (entries pm : List (String × Json)),
    fieldsWF fs = true → losslessFields fs opts entries = true →
    parseFields fs opts c entries = .ok pm →
    ∀ k v2, List.find? (fun p => p.1 == k) pm = some (k, v2) →
      List.find? (fun p => p.1 == k) entries = some (k, v2)
  | .nil, opts, c, entries, pm, _, _, h, k, v2, hkpm => by
    simp only [parseFields, Except.ok.injEq] at h
    rw [← h] at hkpm
    simp [List.find?] at hkpm
  | .cons k0 sk rest, opts, c, entries, pm, hwf, hlf, h, k, v2, hkpm => by
    obtain ⟨e, t, pmr, hf, hp, hr, hpm⟩ := parseFields_cons_ok h
    subst hpm
    simp only [fieldsWF, Bool.and_eq_true, Bool.not_eq_true'] at hwf
    obtain ⟨⟨hnotin, hwsk⟩, hwrest⟩ := hwf
    simp only [losslessFields, hf, Bool.and_eq_true] at hlf
    obtain ⟨hle, hlrest⟩ := hlf
    by_cases hk : k0 = k
    · subst hk
      have hkv : t = v2 := by
        simp [List.find?] at hkpm
        exact hkpm
      have hte : t = e.2 := parse_lossless_id sk opts (c ++ [k0]) e.2 t hwsk hle hp
      have he1 : e.1 = k0 := findKey_fst hf
      rw [hf, ← he1, ← hkv, hte]
    · have hbeq : (k0 == k) = false := beq_eq_false_iff_ne.mpr hk
      have hkpm2 : List.find? (fun p => p.1 == k) pmr = some (k, v2) := by
        simpa [List.find?, hbeq] using hkpm
      exact parseFields_lossless rest opts c entries pmr hwrest hlrest hr k v2 hkpm2

end

theorem crumb_singleton {c b : List String} {m msg : String}
    (hm : (b, m) ∈ [(c, msg)]) : ∃ suffix, b = c ++ suffix := by
  simp at hm
  exact ⟨[], by simp [hm.1]⟩

mutual

theorem parse_error_crumbs : ∀ (s : Schema) (opts : ParseOpts) (c : List String)
    (v : Json) (errs : ValidationErrors), parse s opts c v = .error errs →
    ∀ b m, (b, m) ∈ errs → ∃ suffix, b = c ++ suffix
  | .number, opts, c, .num n, errs, h, b, m, hm => Except.noConfusion h
  | .number, opts, c, .null, errs, h, b, m, hm =>
    crumb_singleton ((Except.error.inj h).symm ▸ hm)
  | .number, opts, c, .bool b2, errs, h, b, m, hm =>
    crumb_singleton ((Except.error.inj h).symm ▸ hm)
  | .number, opts, c, .str u, errs, h, b, m, hm =>
    crumb_singleton ((Except.error.inj h).symm ▸ hm)
  | .number, opts, c, .arr xs, errs, h, b, m, hm =>
    crumb_singleton ((Except.error.inj h).symm ▸ hm)
  | .number, opts, c, .obj es, errs, h, b, m, hm =>
    crumb_singleton ((Except.error.inj h).symm ▸ hm)
  | .string, opts, c, .str u, errs, h, b, m, hm => Except.noConfusion h
  | .string, opts, c, .null, errs, h, b, m, hm =>
    crumb_singleton ((Except.error.inj h).symm ▸ hm)
  | .string, opts, c, .bool b2, errs, h, b, m, hm =>
    crumb_singleton ((Except.error.inj h).symm ▸ hm)
  | .string, opts, c, .num n, errs, h, b, m, hm =>
    crumb_singleton ((Except.error.inj h).symm ▸ hm)
  | .string, opts, c, .arr xs, errs, h, b, m, hm =>
    crumb_singleton ((Except.error.inj h).symm ▸ hm)
  | .string, opts, c, .obj es, errs, h, b, m, hm =>
    crumb_singleton ((Except.error.inj h).symm ▸ hm)
  | .boolean, opts, c, .bool b2, errs, h, b, m, hm => Except.noConfusion h
  | .boolean, opts, c, .null, errs, h, b, m, hm =>
    crumb_singleton ((Except.error.inj h).symm ▸ hm)
  | .boolean, opts, c, .num n, errs, h, b, m, hm =>
    crumb_singleton ((Except.error.inj h).symm ▸ hm)
  | .boolean, opts, c, .str u, errs, h, b, m, hm =>
    crumb_singleton ((Except.error.inj h).symm ▸ hm)
  | .boolean, opts, c, .arr xs, errs, h, b, m, hm =>
    crumb_singleton ((Except.error.inj h).symm ▸ hm)
  | .boolean, opts, c, .obj es, errs, h, b, m, hm =>
    crumb_singleton ((Except.error.inj h).symm ▸ hm)
  | .enum_ ms, opts, c, .null, errs, h, b, m, hm =>
    crumb_singleton ((Except.error.inj h).symm ▸ hm)
  | .enum_ ms, opts, c, .bool b2, errs, h, b, m, hm =>
    crumb_singleton ((Except.error.inj h).symm ▸ hm)
  | .enum_ ms, opts, c, .num n, errs, h, b, m, hm =>
    crumb_singleton ((Except.error.inj h).symm ▸ hm)
  | .enum_ ms, opts, c, .arr xs, errs, h, b, m, hm =>
    crumb_singleton ((Except.error.inj h).symm ▸ hm)
  | .enum_ ms, opts, c, .obj es, errs, h, b, m, hm =>
    crumb_singleton ((Except.error.inj h).symm ▸ hm)
  | .enum_ ms, opts, c, .str u, errs, h, b, m, hm => by
    simp only [parse] at h
    cases hc : (ms.contains u || opts.allowUnrecognizedEnumValues) with
    | true =>
      rw [hc] at h
      simp at h
    | false =>
      rw [hc] at h
      simp only [Bool.false_eq_true, if_false, Except.error.injEq] at h
      exact crumb_singleton (h ▸ hm)
  | .object fs, opts, c, .null, errs, h, b, m, hm =>
    crumb_singleton ((Except.error.inj h).symm ▸ hm)
  | .object fs, opts, c, .bool b2, errs, h, b, m, hm =>
    crumb_singleton ((Except.error.inj h).symm ▸ hm)
  | .object fs, opts, c, .num n, errs, h, b, m, hm =>
    crumb_singleton ((Except.error.inj h).symm ▸ hm)
  | .object fs, opts, c, .str u, errs, h, b, m, hm =>
    crumb_singleton ((Except.error.inj h).symm ▸ hm)
  | .object fs, opts, c, .arr xs, errs, h, b, m, hm =>
    crumb_singleton ((Except.error.inj h).symm ▸ hm)
  | .object fs, opts, c, .obj entries, errs, h, b, m, hm => by
    simp only [parse] at h
    cases hpf : parseFields fs opts c entries with
    | ok pm =>
      rw [hpf] at h
      simp [Except.map] at h
    | error es =>
      rw [hpf] at h
      simp only [Except.map, Except.error.injEq] at h
      subst h
      exact parseFields_error_crumbs fs opts c entries es hpf b m hm

theorem parseFields_error_crumbs : ∀ (fs : Fields) (opts : ParseOpts)
    (c : List String) (entries : List (String × Json)) (errs : ValidationErrors),
    parseFields fs opts c entries = .error errs →
    ∀ b m, (b, m) ∈ errs → ∃ suffix, b = c ++ suffix
  | .nil, _, _, _, errs, h, b, m, hm => Except.noConfusion h
  | .cons k sk rest, opts, c, entries, errs, h, b, m, hm => by
    cases hf : List.find? (fun p => p.1 == k) entries with
    | none =>
      cases hr : parseFields rest opts c entries with
      | ok pmr =>
        simp only [parseFields, hf, hr, combineMissing, Except.error.injEq] at h
        subst h
        simp at hm
        exact ⟨[k], hm.1⟩
      | error es =>
        simp only [parseFields, hf, hr, combineMissing, Except.error.injEq] at h
        subst h
        rcases List.mem_cons.mp hm with hh | ht
        · simp only [Prod.mk.injEq] at hh
          exact ⟨[k], hh.1⟩
        · exact parseFields_error_crumbs rest opts c entries es hr b m ht
    | some e =>
      cases hp : parse sk opts (c ++ [k]) e.2 with
      | ok t =>
        cases hr : parseFields rest opts c entries with
        | ok pmr => simp [parseFields, hf, hp, hr, combineField] at h
        | error es2 =>
          simp only [parseFields, hf, hp, hr, combineField, Except.error.injEq] at h
          subst h
          exact parseFields_error_crumbs rest opts c entries es2 hr b m hm
      | error es =>
        cases hr : parseFields rest opts c entries with
        | ok pmr =>
          simp only [parseFields, hf, hp, hr, combineField, Except.error.injEq] at h
          subst h
          obtain ⟨suf, hsuf⟩ := parse_error_crumbs sk opts (c ++ [k]) e.2 es hp b m hm
          exact ⟨[k] ++ suf, by rw [hsuf, List.append_assoc]⟩
        | error es2 =>
          simp only [parseFields, hf, hp, hr, combineField, Except.error.injEq] at h
          subst h
          rcases List.mem_append.mp hm with h1 | h2
          · obtain ⟨suf, hsuf⟩ := parse_error_crumbs sk opts (c ++ [k]) e.2 es hp b m h1
            exact ⟨[k] ++ suf, by rw [hsuf, List.append_assoc]⟩
          · exact parseFields_error_crumbs rest opts c entries es2 hr b m h2

end

theorem fetcherLoop_bound (transport : Nat → TransportOutcome)
    (cancelFired : Nat → Bool) :
    ∀ (r a : Nat), (fetcherLoop transport cancelFired r a).2 ≤ a + r + 1 := by
  intro r
  induction r with
  | zero =>
    intro a
    simp only [fetcherLoop]
    split
    · simp
    · split <;> simp
  | succ r ih =>
    intro a
    simp only [fetcherLoop]
    split
    · simp
      omega
    · split
      · simp
      · have := ih (a + 1)
        omega

theorem fetcherLoop_cancel (transport : Nat → TransportOutcome)
    (cancelFired : Nat → Bool) (r a : Nat) (h : cancelFired a = true) :
    fetcherLoop transport cancelFired r a = (.err .cancelled, a) := by
  cases r <;> simp [fetcherLoop, h]

theorem find?_append_of_none {α : Type} (p : α → Bool) (l1 l2 : List α)
    (h : ∀ x ∈ l1, p x = false) :
    List.find? p (l1 ++ l2) = List.find? p l2 := by
  induction l1 with
  | nil => rfl
  | cons a rest ih =>
    simp only [List.cons_append, List.find?, h a (List.mem_cons_self a rest)]
    exact ih (fun x hx => h x (List.mem_cons_of_mem a hx))

/-- C1 (amended): for the classified executor failure outcomes with reason
`status-code`, `non-json`, `timeout` or `unknown`, the generated method
body maps the failure to the corresponding typed error, the `APIPromise`
result surface carries it as a non-throwing failure value (`ok` is false),
and only the `unwrap` accessor raises it.  (As stated the claim also
covered the `cancelled` outcome, which the method body does not surface:
see the counterexample.) -/
theorem c1_typed_result_amended (schema : Schema) (e : FetchError)
    (h : FetchError.reason e ∈ ["status-code", "non-json", "timeout", "unknown"]) :
    ∃ te, getDatasetBiInfoBody schema (.err e) = .error te ∧
      APIPromise.from (getDatasetBiInfoBody schema (.err e)) = .failure te ∧
      ApiResult.isOk (APIPromise.from (getDatasetBiInfoBody schema (.err e))) = false ∧
      ApiResult.unwrap (APIPromise.from (getDatasetBiInfoBody schema (.err e))) =
        .error te ∧
      (∀ st b2, e = .statusCode st b2 →
        te = .opikApiError none (some st) (some b2)) ∧
      (∀ st raw, e = .nonJson st raw →
        te = .opikApiError none (some st) (some raw)) ∧
      (e = .timeout → te = .opikApiTimeoutError
        "Timeout exceeded when calling GET /v1/internal/usage/bi-datasets.") ∧
      (∀ msg, e = .unknown msg → te = .opikApiError (some msg) none none) := by
  cases e with
  | statusCode st b =>
    refine ⟨.opikApiError none (some st) (some b), rfl, rfl, rfl, rfl,
      ?_, ?_, ?_, ?_⟩
    · intro st2 b2 he
      cases he
      rfl
    · intro st2 raw he
      exact FetchError.noConfusion he
    · intro he
      exact FetchError.noConfusion he
    · intro msg he
      exact FetchError.noConfusion he
  | nonJson st raw =>
    refine ⟨.opikApiError none (some st) (some raw), rfl, rfl, rfl, rfl,
      ?_, ?_, ?_, ?_⟩
    · intro st2 b2 he
      exact FetchError.noConfusion he
    · intro st2 raw2 he
      cases he
      rfl
    · intro he
      exact FetchError.noConfusion he
    · intro msg he
      exact FetchError.noConfusion he
  | timeout =>
    refine ⟨.opikApiTimeoutError
      "Timeout exceeded when calling GET /v1/internal/usage/bi-datasets.",
      rfl, rfl, rfl, rfl, ?_, ?_, ?_, ?_⟩
    · intro st2 b2 he
      exact FetchError.noConfusion he
    · intro st2 raw2 he
      exact FetchError.noConfusion he
    · intro he
      rfl
    · intro msg he
      exact FetchError.noConfusion he
  | unknown msg =>
    refine ⟨.opikApiError (some msg) none none, rfl, rfl, rfl, rfl,
      ?_, ?_, ?_, ?_⟩
    · intro st2 b2 he
      exact FetchError.noConfusion he
    · intro st2 raw2 he
      exact FetchError.noConfusion he
    · intro he
      exact FetchError.noConfusion he
    · intro msg2 he
      cases he
      rfl
  | cancelled => simp [FetchError.reason] at h

/-- C1 witness: the amended theorem applied at the `timeout` outcome. -/
theorem c1_typed_result_amended_witness :
    ∃ te, getDatasetBiInfoBody DatasetItemSource (.err .timeout) = .error te ∧
      APIPromise.from (getDatasetBiInfoBody DatasetItemSource (.err .timeout)) =
        .failure te ∧
      ApiResult.isOk (APIPromise.from
        (getDatasetBiInfoBody DatasetItemSource (.err .timeout))) = false ∧
      ApiResult.unwrap (APIPromise.from
        (getDatasetBiInfoBody DatasetItemSource (.err .timeout))) = .error te ∧
      te = .opikApiTimeoutError
        "Timeout exceeded when calling GET /v1/internal/usage/bi-datasets." := by
  obtain ⟨te, h1, h2, h3, h4, _, _, h7, _⟩ :=
    c1_typed_result_amended DatasetItemSource .timeout (by decide)
  exact ⟨te, h1, h2, h3, h4, h7 rfl⟩

/-- C1 counterexample: for the classified `cancelled` outcome the call does
not return the failure as a typed result value — it resolves successfully
with `undefined` (`.success none`), because the generated method body has
no branch for that reason. -/
theorem c1_cancelled_counterexample :
    APIPromise.from (getDatasetBiInfoBody DatasetItemSource (.err .cancelled)) =
      .success none ∧
    ApiResult.isOk (APIPromise.from
      (getDatasetBiInfoBody DatasetItemSource (.err .cancelled))) = true :=
  ⟨rfl, rfl⟩

/-- C2 (amended): when the cancellation token has fired before an attempt,
the executor yields the distinct `cancelled` outcome immediately and starts
no further attempt, whatever retries remain; the generated method body,
however, maps that outcome to a successful resolution with `undefined`
rather than surfacing a CancelledError. -/
theorem c2_cancellation_amended (transport : Nat → TransportOutcome)
    (cancelFired : Nat → Bool) (r a : Nat) (schema : Schema)
    (h : cancelFired a = true) :
    fetcherLoop transport cancelFired r a = (.err .cancelled, a) ∧
    APIPromise.from (getDatasetBiInfoBody schema (.err .cancelled)) =
      .success none :=
  ⟨fetcherLoop_cancel transport cancelFired r a h, rfl⟩

/-- C2 witness: the amended theorem applied with a token fired from the
start and two retries available. -/
theorem c2_cancellation_amended_witness :
    fetcherLoop twoFailThenOk (fun _ => true) 2 0 = (.err .cancelled, 0) ∧
    APIPromise.from (getDatasetBiInfoBody DatasetItemSource (.err .cancelled)) =
      .success none :=
  c2_cancellation_amended twoFailThenOk (fun _ => true) 2 0 DatasetItemSource rfl

/-- C2 counterexample: with the token fired before the transport responds
and `maxRetries = 2`, the executor classifies the call as cancelled after
zero attempts, yet the full call resolves successfully with `undefined`
instead of yielding a CancelledError. -/
theorem c2_cancelled_counterexample :
    getDatasetBiInfoCall DatasetItemSource twoFailThenOk (fun _ => true)
      (some { timeoutInSeconds := none, maxRetries := some 2, headers := [] }) =
      .success none ∧
    (fetcher twoFailThenOk (fun _ => true) (some 2)).1 = .err .cancelled ∧
    (fetcher twoFailThenOk (fun _ => true) (some 2)).2 = 0 :=
  ⟨rfl, rfl, rfl⟩

/-- C3 (amended): for every well-formed schema, `serialize` never fails on
a value produced by a successful `parse` and returns exactly the parsed
value; and on every value accepted without loss (`lossless`), the parsed
value is the original raw value, so `serialize` after `parse` returns the
original value.  (As stated the claim fails: in strict mode an object with
an unrecognized key is accepted while the key is silently dropped — see
the counterexample.) -/
theorem c3_roundtrip_amended (s : Schema) (opts : ParseOpts) (c : List String)
    (v t : Json) (hwf : schemaWF s = true) (hp : parse s opts c v = .ok t) :
    serialize s opts c t = .ok t ∧
    (lossless s opts v = true → t = v ∧ serialize s opts c t = .ok v) := by
  have hser : serialize s opts c t = parse s opts c t := serialize_eq_parse s opts c t
  have hidem := parse_idem s opts c v t c hwf hp
  refine ⟨hser.trans hidem, fun hl => ?_⟩
  have hid := parse_lossless_id s opts c v t hwf hl hp
  refine ⟨hid, ?_⟩
  rw [hser, hidem, hid]

/-- C3 witness: the amended theorem applied to the
`NumericalFeedbackDetailUpdate` schema with the call-site passthrough
options and a value carrying an extra key: the round trip returns the
value unchanged. -/
theorem c3_roundtrip_amended_witness :
    serialize NumericalFeedbackDetailUpdate sysUsageRequestOpts ["response"]
      (Json.obj [("max", Json.num 1), ("min", Json.num 0), ("unexpected", Json.num 5)]) =
      .ok (Json.obj [("max", Json.num 1), ("min", Json.num 0), ("unexpected", Json.num 5)]) :=
  ((c3_roundtrip_amended NumericalFeedbackDetailUpdate sysUsageRequestOpts
    ["response"]
    (Json.obj [("max", Json.num 1), ("min", Json.num 0), ("unexpected", Json.num 5)])
    (Json.obj [("max", Json.num 1), ("min", Json.num 0), ("unexpected", Json.num 5)])
    rfl rfl).2 rfl).2

/-- C3 counterexample: under strict mode the `NumericalFeedbackDetailUpdate`
schema accepts an object with the unrecognized key `unexpected`, dropping
the key, so `serialize` after `parse` returns an object different from the
accepted value: the unqualified round-trip equation fails. -/
theorem c3_roundtrip_counterexample :
    parse NumericalFeedbackDetailUpdate strictEngineOpts []
      (Json.obj [("max", Json.num 1), ("min", Json.num 0), ("unexpected", Json.num 5)]) =
      .ok (Json.obj [("max", Json.num 1), ("min", Json.num 0)]) ∧
    serialize NumericalFeedbackDetailUpdate strictEngineOpts []
      (Json.obj [("max", Json.num 1), ("min", Json.num 0)]) =
      .ok (Json.obj [("max", Json.num 1), ("min", Json.num 0)]) ∧
    Json.obj [("max", Json.num 1), ("min", Json.num 0)] ≠
      Json.obj [("max", Json.num 1), ("min", Json.num 0), ("unexpected", Json.num 5)] := by
  refine ⟨rfl, rfl, ?_⟩
  intro hcontra
  simp at hcontra

/-- C4: parsing the string `"unexpected"` against the `DatasetItemSource`
enum schema with permissive enum mode off fails with a ValidationError
whose breadcrumb is `["response"]`, and with permissive enum mode on (the
call-site options) succeeds with the literal string preserved verbatim. -/
theorem c4_enum_strict_permissive :
    parseDocument DatasetItemSource responseStrictOpts (.str "unexpected") =
      .error [(["response"], "unrecognized enum value")] ∧
    parseDocument DatasetItemSource sysUsageRequestOpts (.str "unexpected") =
      .ok (.str "unexpected") :=
  ⟨rfl, rfl⟩

/-- C5: the executor performs at most `maxRetries + 1` attempts; omitting
`maxRetries` behaves exactly as the documented default 2; with
`maxRetries = 2`, two retryable transport failures followed by a success
yield overall success after exactly 3 attempts, and three retryable
failures yield the third failure's detail after exactly 3 attempts, with
no fourth attempt. -/
theorem c5_bounded_retries :
    (∀ (transport : Nat → TransportOutcome) (cancelFired : Nat → Bool)
       (mr : Option Nat),
       (fetcher transport cancelFired mr).2 ≤ mr.getD 2 + 1) ∧
    (∀ (transport : Nat → TransportOutcome) (cancelFired : Nat → Bool),
       fetcher transport cancelFired none = fetcher transport cancelFired (some 2)) ∧
    fetcher twoFailThenOk neverCancel (some 2) = (.ok (Json.obj []) [], 3) ∧
    fetcher alwaysFail neverCancel (some 2) = (.err (.unknown "third failure"), 3) := by
  refine ⟨?_, fun t c => rfl, rfl, rfl⟩
  intro t c mr
  have := fetcherLoop_bound t c (mr.getD 2) 0
  simpa [fetcher] using this

/-- C6: the effective request timeout of `getDatasetBiInfo` is
`timeoutInSeconds * 1000` milliseconds when the caller supplies
`timeoutInSeconds`, and 60000 milliseconds (the documented 60-second
default) when the caller omits it or omits the request options entirely. -/
theorem c6_timeout_effective :
    (∀ (s : Rat) (mr : Option Nat) (hs : List (String × String)),
       getDatasetBiInfoTimeoutMs
         (some { timeoutInSeconds := some s, maxRetries := mr, headers := hs }) =
         s * 1000) ∧
    (∀ (mr : Option Nat) (hs : List (String × String)),
       getDatasetBiInfoTimeoutMs
         (some { timeoutInSeconds := none, maxRetries := mr, headers := hs }) =
         60000) ∧
    getDatasetBiInfoTimeoutMs none = 60000 ∧
    (60000 : Rat) = 60 * 1000 := by
  refine ⟨fun s mr hs => rfl, fun mr hs => rfl, rfl, by norm_num⟩

/-- C7: when the client-level environment supplier resolves to an absent
value, no error is raised (the URL builder is total) and the request URL
is the documented default environment constant joined with the endpoint
path. -/
theorem c7_default_environment (opts : ClientOptions)
    (h : Supplier.get opts.environment = none) :
    getDatasetBiInfoUrl opts =
      urlJoin OpikApiEnvironment.Default "v1/internal/usage/bi-datasets" := by
  unfold getDatasetBiInfoUrl
  rw [h]
  rfl

/-- C7 witness: the theorem applied to a client with all suppliers absent. -/
theorem c7_default_environment_witness :
    getDatasetBiInfoUrl
      { environment := fun _ => none, apiKey := fun _ => none,
        workspaceName := fun _ => none } =
      urlJoin OpikApiEnvironment.Default "v1/internal/usage/bi-datasets" :=
  c7_default_environment
    { environment := fun _ => none, apiKey := fun _ => none,
      workspaceName := fun _ => none } rfl

/-- C8: when the `workspaceName` supplier resolves to an absent value, no
error is raised (the header builder is total) and the `Comet-Workspace`
header is left unset; when it resolves to a string, that string is the
final value of the `Comet-Workspace` header — provided the caller's extra
headers do not themselves override that key (object-literal semantics:
the last writer of a key wins). -/
theorem c8_workspace_header (opts : ClientOptions)
    (reqHeaders : List (String × String))
    (h : ∀ p ∈ reqHeaders, p.1 ≠ "Comet-Workspace") :
    headerValue (getDatasetBiInfoHeaders opts reqHeaders) "Comet-Workspace" =
      Supplier.get opts.workspaceName := by
  unfold headerValue getDatasetBiInfoHeaders
  rw [List.reverse_append]
  rw [find?_append_of_none (fun p => p.1 == "Comet-Workspace")
    (List.map (fun p => (p.1, some p.2)) reqHeaders).reverse _ ?hnone]
  case hnone =>
    intro x hx
    rw [List.mem_reverse] at hx
    obtain ⟨q, hq, hxq⟩ := List.mem_map.mp hx
    rw [← hxq]
    exact beq_eq_false_iff_ne.mpr (h q hq)
  have h1 : ("Authorization" == "Comet-Workspace") = false := by decide
  have h2 : ("X-Fern-Runtime-Version" == "Comet-Workspace") = false := by decide
  have h3 : ("X-Fern-Runtime" == "Comet-Workspace") = false := by decide
  have h4 : ("X-Fern-Language" == "Comet-Workspace") = false := by decide
  cases hw : Supplier.get opts.workspaceName with
  | some w => simp [List.find?, h1, h2, h3, h4, hw]
  | none => simp [List.find?, h1, h2, h3, h4, hw]

/-- C8 witness: the theorem applied to a client whose workspace supplier
resolves to a concrete workspace and no extra request headers. -/
theorem c8_workspace_header_witness :
    headerValue
      (getDatasetBiInfoHeaders
        { environment := fun _ => none, apiKey := fun _ => none,
          workspaceName := fun _ => some "my-workspace" } [])
      "Comet-Workspace" = some "my-workspace" :=
  c8_workspace_header
    { environment := fun _ => none, apiKey := fun _ => none,
      workspaceName := fun _ => some "my-workspace" } []
    (fun p hp => absurd hp (List.not_mem_nil p))

/-- C9: with the options fixed at every SystemUsage call site
(`breadcrumbsPrefix = ["response"]`), every breadcrumb of every validation
failure produced by parsing the response document is non-empty and begins
with "response"; the strictness flags are the single option record
resolved once at the call site and threaded unchanged through the whole
document. -/
theorem c9_breadcrumbs (s : Schema) (v : Json) (errs : ValidationErrors)
    (h : parseDocument s sysUsageRequestOpts v = .error errs) :
    ∀ b m, (b, m) ∈ errs → b ≠ [] ∧ ∃ suffix, b = "response" :: suffix := by
  intro b m hm
  obtain ⟨suf, hsuf⟩ := parse_error_crumbs s sysUsageRequestOpts
    sysUsageRequestOpts.breadcrumbsBase v errs h b m hm
  have hb : b = "response" :: suf := by simpa [sysUsageRequestOpts] using hsuf
  exact ⟨by simp [hb], ⟨suf, hb⟩⟩

/-- C9 witness: the theorem applied to the concrete validation failure of
parsing a number against the `DatasetItemSource` schema at a SystemUsage
call site. -/
theorem c9_breadcrumbs_witness :
    (["response"] : List String) ≠ [] ∧
    ∃ suffix, (["response"] : List String) = "response" :: suffix :=
  c9_breadcrumbs DatasetItemSource (Json.num 3)
    [(["response"], "expected a string")] rfl ["response"] "expected a string"
    (List.mem_singleton.mpr rfl)

/-- C10: for every executor failure whose reason is outside the set
handled by the generated method body (`status-code`, `non-json`,
`timeout`, `unknown`) — that is, the `cancelled` outcome — the body
matches no branch and the call resolves successfully with `undefined`
(`.success none`), surfacing neither an error nor a typed body. -/
theorem c10_unmatched_reason_resolves_undefined (schema : Schema)
    (e : FetchError)
    (h : FetchError.reason e ∉ ["status-code", "non-json", "timeout", "unknown"]) :
    getDatasetBiInfoBody schema (.err e) = .ok none ∧
    APIPromise.from (getDatasetBiInfoBody schema (.err e)) = .success none := by
  cases e with
  | cancelled => exact ⟨rfl, rfl⟩
  | statusCode st b => exact absurd (by simp [FetchError.reason]) h
  | nonJson st raw => exact absurd (by simp [FetchError.reason]) h
  | timeout => exact absurd (by simp [FetchError.reason]) h
  | unknown msg => exact absurd (by simp [FetchError.reason]) h

/-- C10 witness: the theorem applied at the `cancelled` outcome. -/
theorem c10_unmatched_reason_resolves_undefined_witness :
    getDatasetBiInfoBody DatasetItemSource (.err .cancelled) = .ok none ∧
    APIPromise.from (getDatasetBiInfoBody DatasetItemSource (.err .cancelled)) =
      .success none :=
  c10_unmatched_reason_resolves_undefined DatasetItemSource .cancelled (by decide)
